import Mathlib

/-!
Verification of the timecard metric/table library (timecard/timecard.py)
against its natural-language specification.

Modelling conventions:
- Python floats are modelled as rationals, Python ints as Int.
- Python object attributes become structure fields; mutation becomes
  explicit state passing.
- A value that can be None is an Option.
- Operations that can raise at runtime (failed assert, TypeError from a
  coercion) return Except or Option.
-/

namespace Timecard

set_option maxRecDepth 10000

/-! ### Numeric formatting helpers

Python string formatting with a fixed number of decimals (the percent .2f
and format .1f forms used by the source) rounds half to even. We model it
on rationals. -/

/-- Floor of a rational as an integer (denominator is always positive). -/
def ratFloor (q : ℚ) : Int := q.num.fdiv q.den

/-- Nearest integer, ties to even (the rounding used by Python float
formatting). -/
def roundHalfEven (x : ℚ) : Int :=
  let n := ratFloor x
  if x - (n : ℚ) < 1 / 2 then n
  else if (1 : ℚ) / 2 < x - (n : ℚ) then n + 1
  else if n % 2 = 0 then n else n + 1

/-- Renders a rational with exactly two decimal places, as the percent .2f
format does. -/
def fmt2 (q : ℚ) : String :=
  let c := roundHalfEven (q * 100)
  let a := c.natAbs
  let frac := a % 100
  (if c < 0 then "-" else "") ++ toString (a / 100) ++ "." ++
    (if frac < 10 then "0" ++ toString frac else toString frac)

/-- Renders a rational with exactly one decimal place, as the format .1f
form does (used by Float.__str__). -/
def fmt1 (q : ℚ) : String :=
  let c := roundHalfEven (q * 10)
  let a := c.natAbs
  (if c < 0 then "-" else "") ++ toString (a / 10) ++ "." ++ toString (a % 10)

/-- Python str.rjust: pad on the left with spaces up to the given width. -/
def rjust (s : String) (w : ℕ) : String :=
  String.mk (List.replicate (w - s.length) ' ') ++ s

/-! ### Base metric accumulate / deaccumulate

From _MetricBase.__iadd__ and _MetricBase.__isub__: the current value is
either unset (None) or a number. -/

/-- Models _MetricBase.__iadd__: if the value is unset, initialize it to
the delta; otherwise add the delta. -/
def iadd (v : Option ℚ) (x : ℚ) : Option ℚ :=
  match v with
  | none => some x
  | some w => some (w + x)

/-- Models _MetricBase.__isub__: if the value is unset, the source
initializes it to the delta itself (self.value = value, not -value);
otherwise subtract the delta. -/
def isub (v : Option ℚ) (x : ℚ) : Option ℚ :=
  match v with
  | none => some x
  | some w => some (w - x)

/-! ### Bytes rendering

From Bytes.__str__ and Bytes.to_csv. The source builds the prefix table
prefix[s] = 1 shifted left by (i+1)*10 for the symbols after B, and scans
the symbols in reversed (descending) order; bytesTable below is that
descending scan order with the corresponding thresholds. -/

def bytesSymbols : List String := ["B", "K", "M", "G", "T", "P", "E", "Z", "Y"]

/-- The descending (symbol, threshold) scan performed by Bytes.__str__. -/
def bytesTable : List (String × Int) :=
  [("Y", 2 ^ 80), ("Z", 2 ^ 70), ("E", 2 ^ 60), ("P", 2 ^ 50),
   ("T", 2 ^ 40), ("G", 2 ^ 30), ("M", 2 ^ 20), ("K", 2 ^ 10)]

/-- Models Bytes.__str__: zero (falsy) renders as a single blank; otherwise
the first symbol in descending order whose threshold is at most the value
scales it (two decimals); below every threshold the raw value is shown with
two decimals and the B suffix. -/
def bytesStr (n : Int) : String :=
  if n = 0 then " "
  else
    match bytesTable.find? (fun p => decide (p.2 ≤ n)) with
    | some p => fmt2 ((n : ℚ) / (p.2 : ℚ)) ++ p.1
    | none => fmt2 (n : ℚ) ++ "B"

/-- Models Bytes.to_csv: the plain integer string of the value. -/
def bytesToCsv (n : Int) : String := toString n

/-! ### TotalAndSec

From class TotalAndSec. The composite has children total (an Int metric)
and persec (a Float metric), plus the private snapshot fields _last_snap
and _last_time. The constructor sets _last_time to the wall clock (a
nonzero timestamp) and calls reset, which leaves persec unset. -/

structure TASState where
  total : Int
  persec : Option ℚ
  lastSnap : Int
  lastTime : ℚ
deriving DecidableEq, Repr

/-- Models TotalAndSec.reset: only persec is cleared. -/
def tasReset (st : TASState) : TASState := { st with persec := none }

/-- Models TotalAndSec.__iadd__: self.total += value. (The inner
_MetricBase.__iadd__ returns None, and reassigning None into an existing
metric entry is a no-op in _OrderedMetrics.__setitem__, so the net effect
is exactly an addition to the total value.) -/
def tasIadd (st : TASState) (x : Int) : TASState :=
  { st with total := st.total + x }

/-- Models TotalAndSec.__isub__: the source body is self.total += value,
identical to __iadd__. -/
def tasIsub (st : TASState) (x : Int) : TASState :=
  { st with total := st.total + x }

/-- Models TotalAndSec.calc at wall-clock time now. The source guard
if not self._last_time treats only the float 0.0 as falsy. Assigning
self.persec = delta goes through the ordered-mapping coercion and sets the
value of the existing persec metric. -/
def tasCalc (now : ℚ) (st : TASState) : TASState :=
  if st.lastTime = 0 then
    { st with lastSnap := st.total, lastTime := now }
  else
    let td := now - st.lastTime
    if td < 9 / 10 then st
    else
      { st with
        persec := some (((st.total - st.lastSnap : Int) : ℚ) / td),
        lastSnap := st.total,
        lastTime := now }

/-- A committed render of a TotalAndSec inside Timecard.write_line:
render_value with fix true first runs calc and then displays persec;
write_line afterwards calls reset on the metric. Returns the displayed
persec value and the state after the commit. -/
def tasCommitRender (now : ℚ) (st : TASState) : Option ℚ × TASState :=
  let c := tasCalc now st
  (c.persec, tasReset c)

/-! ### Timeit

From class Timeit. The children are min, average, max (DeltaTime metrics,
unset after reset) and one Int bucket per configured limit; the buckets
are kept here as a (limit, counter) list in the descending order in which
Timeit.__call__ scans self._limits. -/

structure TimeitState where
  min : Option ℚ
  average : Option ℚ
  max : Option ℚ
  buckets : List (ℚ × ℕ)
deriving DecidableEq, Repr

/-- Models Timeit.reset: statistics unset, every bucket counter zero. -/
def timeitReset (st : TimeitState) : TimeitState :=
  { st with
      min := none, average := none, max := none,
      buckets := st.buckets.map (fun p => (p.1, 0)) }

/-- Models the bucket loop of Timeit.__call__: scan the limits in
descending order and increment the first bucket whose limit is at most the
elapsed duration, then stop (the break). The increment goes through
__iadd__ on the bucket metric followed by the no-op None reassignment in
_OrderedMetrics.__setitem__. -/
def bump : List (ℚ × ℕ) → ℚ → List (ℚ × ℕ)
  | [], _ => []
  | p :: rest, d =>
      if p.1 ≤ d then (p.1, p.2 + 1) :: rest
      else p :: bump rest d

/-- Models the sampling update of Timeit.__call__ for an elapsed duration
d: if max is unset (no sample since the last reset) set min, average and
max all to d; otherwise update min (when d is below it) or else max (when
d is above it) and replace average by the running average (average + d)/2.
Then run the bucket scan. The source reads min.value and average.value in
the second branch; reset and the first-sample branch keep min and average
set exactly when max is set, so the getD defaults are never reached from a
reachable state. -/
def sample (st : TimeitState) (d : ℚ) : TimeitState :=
  let st1 :=
    match st.max with
    | none => { st with min := some d, average := some d, max := some d }
    | some mx =>
        let mn := st.min.getD mx
        let av := st.average.getD mx
        { st with
          min := if d < mn then some d else st.min,
          max := if d < mn then st.max else if mx < d then some d else st.max,
          average := some ((av + d) / 2) }
  { st1 with buckets := bump st1.buckets d }

/-- Models one use of the Timeit context manager, given the elapsed
duration d of the guarded block, whether the block raised, and the
exception_ok argument. Mirrors the finally block of Timeit.__call__: when
the block raised and exception_ok is not True, the exception is re-raised
before the elapsed duration is even computed; otherwise the sample is
recorded and, when the block raised, the exception is re-raised at the
end (the generator never suppresses it). The Bool in the result is true
exactly when an exception propagates to the caller. -/
def timeitCall (st : TimeitState) (d : ℚ) (raised : Bool)
    (exceptionOk : Bool) : TimeitState × Bool :=
  if raised && !exceptionOk then (st, true)
  else
    let st1 := sample st d
    (st1, raised)

/-! ### The ordered metric mapping

From _OrderedMetrics.__setitem__. Stored entries are either metric objects
or plain values; a metric carries its declared value_type (None for the
base and group classes) and its current scalar value. -/

/-- The declared value_type of a metric class (int or float). -/
inductive VType where
  | vint
  | vfloat
deriving DecidableEq, Repr

/-- A Python scalar as it can appear as a metric value or as the value
argument of a mapping assignment. -/
inductive Scalar where
  | snone
  | sbool (b : Bool)
  | sint (n : Int)
  | sfloat (q : ℚ)
deriving DecidableEq, Repr

/-- A _MetricBase instance as far as __setitem__ observes it: its declared
value_type and its current value. -/
structure MetricCell where
  vtype : Option VType
  value : Scalar
deriving DecidableEq, Repr

/-- A value presented to __setitem__: a scalar or a metric object. -/
inductive SetVal where
  | scalar (s : Scalar)
  | metric (m : MetricCell)
deriving DecidableEq, Repr

/-- Python int(x) and float(x) applied to an assignment value: bools
convert to 0 and 1, numbers convert between int and float (int truncates
toward zero, as Int.tdiv does), and None or a metric object raises
TypeError, modelled as none. -/
def pyCoerce (t : VType) (v : SetVal) : Option Scalar :=
  match t, v with
  | .vint, .scalar (.sint n) => some (.sint n)
  | .vint, .scalar (.sbool b) => some (.sint (if b then 1 else 0))
  | .vint, .scalar (.sfloat q) => some (.sint (Int.tdiv q.num q.den))
  | .vint, .scalar .snone => none
  | .vint, .metric _ => none
  | .vfloat, .scalar (.sint n) => some (.sfloat n)
  | .vfloat, .scalar (.sbool b) => some (.sfloat (if b then 1 else 0))
  | .vfloat, .scalar (.sfloat q) => some (.sfloat q)
  | .vfloat, .scalar .snone => none
  | .vfloat, .metric _ => none

/-- The plain ordered-dict store (the orig() call in the source): replace
in place when the key is present, append otherwise. Keys are unique. -/
def omStore (d : List (String × SetVal)) (key : String) (v : SetVal) :
    List (String × SetVal) :=
  match d with
  | [] => [(key, v)]
  | (k, w) :: rest =>
      if k = key then (k, v) :: rest else (k, w) :: omStore rest key v

/-- Models _OrderedMetrics.__setitem__. The guard in the source reads
value is isinstance(value, _MetricBase): isinstance returns the bool False
here whenever value is not a metric, and a metric object is never the
same object as True, so the guard holds exactly when value is the literal
bool False. Otherwise the key is looked up: on a missing key the value is
stored directly; when the key holds a metric, assigning None returns the
metric unchanged, a metric with no declared value_type fails the assert
(error), and any other value is passed through the value_type conversion
(which raises TypeError, an error here, when the value is itself a metric
object); when the key holds a non-metric the value is stored directly. -/
def omSetitem (d : List (String × SetVal)) (key : String) (value : SetVal) :
    Except Unit (List (String × SetVal)) :=
  if value = SetVal.scalar (Scalar.sbool false) then
    Except.ok (omStore d key value)
  else
    match d.lookup key with
    | none => Except.ok (omStore d key value)
    | some (SetVal.metric item) =>
        if value = SetVal.scalar Scalar.snone then Except.ok d
        else
          match item.vtype with
          | none => Except.error ()
          | some t =>
              match pyCoerce t value with
              | none => Except.error ()
              | some s =>
                  Except.ok
                    (omStore d key (SetVal.metric { item with value := s }))
    | some (SetVal.scalar _) => Except.ok (omStore d key value)

/-! ### The Timecard table

From class Timecard, write_headers and write_line, together with the
metric kinds the table claims exercise: Int metrics, Float metrics, plain
MultiMetric groups and TotalAndSec composites. Classes with purely
clock-driven values (AutoDateTime, AutoDeltaTime) are not needed by any
claim. Each metric carries its title, subtitle and current column width
(class defaults 7 for Int and 6 for Float); a TotalAndSec carries its
TASState, its children total and persec having the fixed titles total and
/sec and the Int and Float class widths. -/

inductive TMetric where
  | mInt (title subtitle : String) (width : ℕ) (value : Option Int)
  | mFloat (title subtitle : String) (width : ℕ) (value : Option ℚ)
  | mMulti (title : String) (children : List TMetric)
  | mTAS (title : String) (st : TASState)

/-- The title attribute of a metric. -/
def titleOf : TMetric → String
  | .mInt t _ _ _ => t
  | .mFloat t _ _ _ => t
  | .mMulti t _ => t
  | .mTAS t _ => t

/-- The current width attribute of a metric. A group computes its own
width only inside render_subtitle; the class default 0 stands before
that, and no claim observes a group width. -/
def widthOf : TMetric → ℕ
  | .mInt _ _ w _ => w
  | .mFloat _ _ w _ => w
  | .mMulti _ _ => 0
  | .mTAS _ _ => 0

/-- Models __str__ for the metric kinds above: an unset value is a single
blank; Int values print in decimal; Float values print with one decimal.
The group cases fall back to the base __str__ over the class-level value
(None for MultiMetric); the render path never consults them because
MultiMetric.render_value renders children instead. -/
def strOfM : TMetric → String
  | .mInt _ _ _ none => " "
  | .mInt _ _ _ (some n) => toString n
  | .mFloat _ _ _ none => " "
  | .mFloat _ _ _ (some q) => fmt1 q
  | .mMulti _ _ => " "
  | .mTAS _ st => toString st.total

/-- Models _MetricBase.to_csv = str(self) for the leaf metrics. Groups are
never asked directly: write_headers and write_line expand them. -/
def toCsvM : TMetric → String
  | m => strOfM m

/-- The per-child csv strings write_line collects for one metric: group
children are expanded in order (a TotalAndSec is a MultiMetric whose
children are total and persec); a leaf contributes its own to_csv. -/
def csvValuesOf : TMetric → List String
  | .mMulti _ cs => cs.map toCsvM
  | .mTAS _ st =>
      [toString st.total, match st.persec with | none => " " | some q => fmt1 q]
  | m => [toCsvM m]

/-- The csv header columns write_headers emits for one metric: a group
expands to one column group_child per child, a leaf contributes title or
title_subtitle when it has a subtitle. The TotalAndSec children carry the
constructor titles total and /sec. -/
def headerCols : TMetric → List String
  | .mMulti t cs => cs.map (fun c => t ++ "_" ++ titleOf c)
  | .mTAS t _ => [t ++ "_total", t ++ "_/sec"]
  | .mInt t s _ _ => if s = "" then [t] else [t ++ "_" ++ s]
  | .mFloat t s _ _ => if s = "" then [t] else [t ++ "_" ++ s]

/-- The ANSI fragments the rendering wraps values in (the _ansi table). -/
def ansiReset : String := "\x1b[0;0m"

def ansiReverse : String := "\x1b[2m"

def ansiGreen : String := "\x1b[0;32m"

def ansiGreenHigh : String := "\x1b[1;32m"

def ansiGray : String := "\x1b[0;37m"

/-- The value color: committed values bold green, provisional plain green. -/
def valueColor (fix : Bool) : String :=
  if fix then ansiGreenHigh else ansiGreen

/-- Models _render_cell: the string form right-justified in the column. -/
def renderCell (m : TMetric) : String := rjust (strOfM m) (widthOf m)

/-- Models render_value(fix) for the metric kinds above, returning the
updated metric (TotalAndSec.render_value runs calc first when committing)
and the rendered console cell. Leaves wrap their cell in the value color;
a group renders each child cell wrapped in the color and joins them with
single spaces (MultiMetric.render_value); a TotalAndSec renders its total
(Int, width 7) and persec (Float, width 6) children the same way. -/
def renderValue (now : ℚ) (fix : Bool) : TMetric → TMetric × String
  | .mInt t s w v =>
      (.mInt t s w v,
        valueColor fix ++ renderCell (.mInt t s w v) ++ ansiReset)
  | .mFloat t s w v =>
      (.mFloat t s w v,
        valueColor fix ++ renderCell (.mFloat t s w v) ++ ansiReset)
  | .mMulti t cs =>
      (.mMulti t cs,
        String.intercalate " "
          (cs.map (fun c => valueColor fix ++ renderCell c ++ ansiReset)))
  | .mTAS t st =>
      let c := if fix then tasCalc now st else st
      (.mTAS t c,
        String.intercalate " "
          [valueColor fix ++ rjust (toString c.total) 7 ++ ansiReset,
            valueColor fix ++
              rjust (match c.persec with | none => " " | some q => fmt1 q) 6 ++
              ansiReset])

/-- Models reset() as dispatched per class: the base reset is a no-op (Int,
Float and plain groups keep their values); TotalAndSec.reset clears
persec. -/
def resetM : TMetric → TMetric
  | .mTAS t st => .mTAS t (tasReset st)
  | m => m

/-- The Timecard state: the attached metrics in insertion order, the csv
file contents when a path is configured (none means no path), the console
output as the list of chunks written so far, and the flag recording
whether the previous line was committed. -/
structure TC where
  metrics : List TMetric
  csvfile : Option (List (List String))
  console : List String
  lastLineFixed : Bool

/-- Models Timecard.write_headers restricted to its csv effect: when a
path is configured the header row (groups expanded to group_child
columns) is written with rewrite, truncating the file. The console header
lines and the lazily cached title widths are presentation state no claim
refers to; for the metric kinds modelled here the width adjustment of
render_subtitle is the identity (every title fits its class width). -/
def write_headers (tc : TC) : TC :=
  { tc with
      csvfile :=
        match tc.csvfile with
        | none => none
        | some _ => some [(tc.metrics.map headerCols).flatten] }

/-- The body of the write_line loop over the attached metrics, mirroring
the source: render the cell with the fix flag, collect the csv values of
the metric after rendering (a committed TotalAndSec has just run calc)
and, only when committing, reset the metric. Returns the updated metrics,
the console cells and the csv row values. -/
def writeLoop (now : ℚ) (fix : Bool) :
    List TMetric → List TMetric × List String × List String
  | [] => ([], [], [])
  | m :: rest =>
      let r := renderValue now fix m
      let tail := writeLoop now fix rest
      ((if fix then resetM r.1 else r.1) :: tail.1,
        r.2 :: tail.2.1,
        csvValuesOf r.1 ++ tail.2.2)

/-- Models Timecard.write_line(fix): run the loop, append the csv row when
committing with a configured path, then write the console line (a fresh
line after a committed line, otherwise a carriage return overwriting the
provisional line, with the reverse style when not committing) and record
the fix flag. -/
def write_line (now : ℚ) (fix : Bool) (tc : TC) : TC :=
  let r := writeLoop now fix tc.metrics
  let file :=
    if fix then
      match tc.csvfile with
      | some rows => some (rows ++ [r.2.2])
      | none => none
    else tc.csvfile
  let sep := ansiGray ++ "|" ++ ansiReset
  let pre :=
    (if tc.lastLineFixed then "\n\r" else "\r") ++
      (if fix then "" else ansiReverse)
  { metrics := r.1,
    csvfile := file,
    console := tc.console ++ [pre ++ String.intercalate sep r.2.1],
    lastLineFixed := fix }

/-! ## Claims -/

/-- Claim C6: for every base metric and every delta x, accumulate on an
unset value initializes it to x and otherwise adds x; deaccumulate on an
unset value also initializes it to +x (the same degenerate initialization
as accumulate, not -x) and otherwise subtracts x. -/
theorem metric_accumulate_spec (v x : ℚ) :
    iadd none x = some x ∧ iadd (some v) x = some (v + x) ∧
    isub none x = some x ∧ isub (some v) x = some (v - x) :=
  ⟨rfl, rfl, rfl, rfl⟩

/-- Claim C10: for every TotalAndSec (and Traffic) state and every delta
x, deaccumulate adds x to the total exactly as accumulate does, so for a
nonnegative delta the total can never decrease through deaccumulate. -/
theorem totalAndSec_isub_spec (st : TASState) (x : Int) :
    tasIsub st x = tasIadd st x ∧ (tasIsub st x).total = st.total + x ∧
    (0 ≤ x → st.total ≤ (tasIsub st x).total) := by
  refine ⟨rfl, rfl, fun hx => ?_⟩
  show st.total ≤ st.total + x
  omega

/-- Witness for claim C10 at a concrete state and delta. -/
theorem totalAndSec_isub_spec_witness :
    (0 : Int) ≤ 3 ∧
      (⟨0, none, 0, 1⟩ : TASState).total ≤ (tasIsub ⟨0, none, 0, 1⟩ 3).total :=
  ⟨by decide, (totalAndSec_isub_spec ⟨0, none, 0, 1⟩ 3).2.2 (by decide)⟩

/-- A fresh Timeit sampler with one configured limit, for the exception
claims: no sample yet, one empty bucket. -/
def timeitFresh : TimeitState := ⟨none, none, none, [(1, 0)]⟩

/-- Claim C1 counterexample: the guarded block raises and suppression was
not requested; the call leaves the sampler state completely unchanged,
although the sampling update at the elapsed duration would have changed
it. The sample IS skipped because of the failure, contrary to the claim. -/
theorem timeit_noSuppress_cex :
    timeitCall timeitFresh 2 true false = (timeitFresh, true) ∧
    sample timeitFresh 2 ≠ timeitFresh := by
  refine ⟨rfl, ?_⟩
  simp [sample, bump, timeitFresh]

/-- Claim C1 (amended): when the guarded operation raises and the caller
did not request suppression, the exception is re-raised at the start of
the finally block, before the sampling update runs: the exception
propagates and the elapsed-duration sample is never recorded (min,
average, max and the buckets are all left unchanged). -/
theorem timeit_noSuppress_spec (st : TimeitState) (d : ℚ) :
    timeitCall st d true false = (st, true) := rfl

/-- Claim C5 counterexample: with exception_ok True and a raising block,
the sample is recorded but the exception nevertheless propagates to the
caller (the finally block re-raises it after sampling), contrary to the
claimed suppression. -/
theorem timeit_suppress_cex :
    timeitCall timeitFresh 2 true true = (sample timeitFresh 2, true) ∧
    (timeitCall timeitFresh 2 true true).2 ≠ false := by
  exact ⟨rfl, by simp [timeitCall]⟩

/-- Claim C5 (amended): when the caller passes exception_ok = True and the
guarded operation raises, the elapsed-duration sample is recorded through
the sampling update, and the exception then still propagates to the
caller: the helper never suppresses it. -/
theorem timeit_suppress_spec (st : TimeitState) (d : ℚ) :
    timeitCall st d true true = (sample st d, true) := rfl

/-- Claim C2 counterexample: total accumulates 100 between time 1 and a
first committed render at time 2, which displays a rate of 100; a second
committed render at time 2.5 (less than 0.9s later) displays the unset
value, not the previous rate: the per-commit reset cleared persec and the
gated calc left it unset. -/
theorem totalAndSec_rate_gate_cex :
    (tasCommitRender 2 (tasIadd ⟨0, none, 0, 1⟩ 100)).1 = some 100 ∧
    (tasCommitRender (5 / 2)
        (tasCommitRender 2 (tasIadd ⟨0, none, 0, 1⟩ 100)).2).1 = none ∧
    (tasCommitRender (5 / 2)
        (tasCommitRender 2 (tasIadd ⟨0, none, 0, 1⟩ 100)).2).1 ≠
      (tasCommitRender 2 (tasIadd ⟨0, none, 0, 1⟩ 100)).1 := by
  have h1 : (tasCommitRender 2 (tasIadd ⟨0, none, 0, 1⟩ 100)).1 = some 100 := by
    norm_num [tasCommitRender, tasCalc, tasIadd, tasReset]
  have h2 : (tasCommitRender (5 / 2)
      (tasCommitRender 2 (tasIadd ⟨0, none, 0, 1⟩ 100)).2).1 = none := by
    norm_num [tasCommitRender, tasCalc, tasIadd, tasReset]
  refine ⟨h1, h2, ?_⟩
  rw [h1, h2]
  exact fun h => Option.noConfusion h

/-- Claim C2 (amended): when less than 0.9 seconds have elapsed since the
last computation (and the stored timestamp is a real, nonzero clock
value), calc leaves the whole state unchanged: the rate value, the
snapshot total and the timestamp. A committed render at such a time
therefore displays whatever persec currently holds; since the previous
committed render ended with reset clearing persec, that displayed value
is the unset blank, not the previously computed rate. -/
theorem totalAndSec_rate_gate (st : TASState) (now : ℚ)
    (h0 : st.lastTime ≠ 0) (hlt : now - st.lastTime < 9 / 10) :
    tasCalc now st = st ∧ (tasCommitRender now st).1 = st.persec ∧
    (st.persec = none → (tasCommitRender now st).1 = none) := by
  have hc : tasCalc now st = st := by
    unfold tasCalc
    rw [if_neg h0, if_pos hlt]
  refine ⟨hc, ?_, fun h => ?_⟩
  · show (tasCalc now st).persec = st.persec
    rw [hc]
  · show (tasCalc now st).persec = none
    rw [hc, h]

/-- Witness for claim C2 at a concrete post-commit state and clock. -/
theorem totalAndSec_rate_gate_witness :
    (⟨100, none, 100, 2⟩ : TASState).lastTime ≠ 0 ∧
    (5 / 2 : ℚ) - (⟨100, none, 100, 2⟩ : TASState).lastTime < 9 / 10 ∧
    (tasCalc (5 / 2) ⟨100, none, 100, 2⟩ = ⟨100, none, 100, 2⟩ ∧
      (tasCommitRender (5 / 2) ⟨100, none, 100, 2⟩).1 =
        (⟨100, none, 100, 2⟩ : TASState).persec ∧
      ((⟨100, none, 100, 2⟩ : TASState).persec = none →
        (tasCommitRender (5 / 2) ⟨100, none, 100, 2⟩).1 = none)) :=
  ⟨by norm_num, by norm_num,
    totalAndSec_rate_gate ⟨100, none, 100, 2⟩ (5 / 2) (by norm_num)
      (by norm_num)⟩

/-- The failing input of claim C3: a mapping whose key k already holds an
Int metric, and a fresh Int metric intended to replace it. -/
def bugDict : List (String × SetVal) :=
  [("k", SetVal.metric ⟨some VType.vint, Scalar.sint 0⟩)]

def bugNewMetric : MetricCell := ⟨some VType.vint, Scalar.sint 5⟩

/-- Claim C3 (code bug): assigning a new metric object to a key that
already holds a metric does not replace the stored metric. The source
guard reads value is isinstance(value, _MetricBase), which holds only for
the literal bool False, so the new metric falls into the type-coercion
branch and int() of a metric object raises TypeError (an error here)
instead of storing the new metric. A scalar assigned to the same key is
coerced into the existing metric as the claim describes. -/
theorem setitem_metric_replace_bug :
    omSetitem bugDict "k" (SetVal.metric bugNewMetric) = Except.error () ∧
    omSetitem bugDict "k" (SetVal.metric bugNewMetric) ≠
      Except.ok (omStore bugDict "k" (SetVal.metric bugNewMetric)) ∧
    omSetitem bugDict "k" (SetVal.scalar (Scalar.sint 7)) =
      Except.ok [("k", SetVal.metric ⟨some VType.vint, Scalar.sint 7⟩)] := by
  refine ⟨rfl, ?_, rfl⟩
  intro h
  rw [(rfl : omSetitem bugDict "k" (SetVal.metric bugNewMetric) =
    Except.error ())] at h
  exact Except.noConfusion h

/-- Helper: on a strictly descending bucket list, the first-match scan of
bump increments exactly the bucket of the largest limit that is at most
the duration, and leaves every other bucket unchanged. -/
theorem bump_eq_map (bs : List (ℚ × ℕ)) (d : ℚ)
    (h : bs.Pairwise (fun a b => b.1 < a.1)) :
    bump bs d =
      bs.map (fun p =>
        if p.1 ≤ d ∧ ∀ q ∈ bs, q.1 ≤ d → q.1 ≤ p.1 then (p.1, p.2 + 1)
        else p) := by
  induction bs with
  | nil => rfl
  | cons p tl ih =>
      rw [List.pairwise_cons] at h
      obtain ⟨hp, htl⟩ := h
      simp only [bump, List.map_cons]
      by_cases hle : p.1 ≤ d
      · have hcond : p.1 ≤ d ∧ ∀ q ∈ p :: tl, q.1 ≤ d → q.1 ≤ p.1 := by
          refine ⟨hle, fun q hq _ => ?_⟩
          rcases List.mem_cons.mp hq with h1 | h1
          · exact le_of_eq (congrArg Prod.fst h1)
          · exact le_of_lt (hp q h1)
        rw [if_pos hle, if_pos hcond]
        refine congrArg (List.cons _) ?_
        have htail : ∀ x ∈ tl,
            (if x.1 ≤ d ∧ ∀ q ∈ p :: tl, q.1 ≤ d → q.1 ≤ x.1
              then (x.1, x.2 + 1) else x) = id x := by
          intro x hx
          rw [if_neg]
          · rfl
          · rintro ⟨-, hall⟩
            exact absurd (hall p (List.mem_cons_self _ _) hle)
              (not_le.mpr (hp x hx))
        rw [List.map_congr_left htail, List.map_id]
      · have hcond : ¬(p.1 ≤ d ∧ ∀ q ∈ p :: tl, q.1 ≤ d → q.1 ≤ p.1) :=
          fun hc => hle hc.1
        rw [if_neg hle, if_neg hcond]
        refine congrArg (List.cons _) ?_
        rw [ih htl]
        refine List.map_congr_left fun x hx => ?_
        refine if_congr (and_congr_right fun _ => ⟨fun hall q hq hqd => ?_,
          fun hall q hq hqd => ?_⟩) rfl rfl
        · rcases List.mem_cons.mp hq with rfl | h1
          · exact absurd hqd hle
          · exact hall q h1 hqd
        · exact hall q (List.mem_cons_of_mem _ hq) hqd

/-- Claim C4: for the Timeit sampler, the first sample of a cycle sets
min = average = max = d; a later sample updates min to min(min, d), max
to max(max, d) (given the min-max ordering invariant) and average by the
running recurrence (average + d) / 2 — not an arithmetic mean; and on a
strictly descending limits list exactly the bucket of the largest limit
at most d is incremented by one, every other bucket unchanged (hence no
bucket when d is below every limit). -/
theorem timeit_sample_spec (st : TimeitState) (d : ℚ)
    (hdesc : st.buckets.Pairwise (fun a b => b.1 < a.1)) :
    (st.max = none →
      (sample st d).min = some d ∧ (sample st d).average = some d ∧
        (sample st d).max = some d) ∧
    (∀ mn av mx, st.min = some mn → st.average = some av →
      st.max = some mx → mn ≤ mx →
      (sample st d).min = some (Min.min mn d) ∧
        (sample st d).max = some (Max.max mx d) ∧
        (sample st d).average = some ((av + d) / 2)) ∧
    (sample st d).buckets =
      st.buckets.map (fun p =>
        if p.1 ≤ d ∧ ∀ q ∈ st.buckets, q.1 ≤ d → q.1 ≤ p.1 then
          (p.1, p.2 + 1)
        else p) := by
  refine ⟨?_, ?_, ?_⟩
  · intro hmx
    simp [sample, hmx]
  · intro mn av mx hmn hav hmx hle
    have hgetmn : st.min.getD mx = mn := by rw [hmn]; rfl
    have hgetav : st.average.getD mx = av := by rw [hav]; rfl
    refine ⟨?_, ?_, ?_⟩ <;> simp only [sample, hmx, hgetmn, hgetav]
    · by_cases hd : d < mn
      · rw [if_pos hd, min_eq_right (le_of_lt hd)]
      · rw [if_neg hd, hmn, min_eq_left (not_lt.mp hd)]
    · by_cases hd : d < mn
      · rw [if_pos hd, max_eq_left (le_trans (le_of_lt hd) hle)]
      · rw [if_neg hd]
        by_cases hx : mx < d
        · rw [if_pos hx, max_eq_right (le_of_lt hx)]
        · rw [if_neg hx, max_eq_left (not_lt.mp hx)]
  · cases hmx : st.max <;>
      simpa [sample, hmx] using bump_eq_map st.buckets d hdesc

/-- Witness for claim C4 at a concrete sampler state and duration. -/
theorem timeit_sample_spec_witness :
    ((⟨some (1 / 2), some (3 / 4), some 1,
        [(1 / 2, 0), (1 / 10, 0)]⟩ : TimeitState).buckets.Pairwise
      (fun a b => b.1 < a.1)) ∧
    ((
      (⟨some (1 / 2), some (3 / 4), some 1,
          [(1 / 2, 0), (1 / 10, 0)]⟩ : TimeitState).max = none →
      (sample ⟨some (1 / 2), some (3 / 4), some 1,
          [(1 / 2, 0), (1 / 10, 0)]⟩ (1 / 5)).min = some (1 / 5) ∧
        (sample ⟨some (1 / 2), some (3 / 4), some 1,
            [(1 / 2, 0), (1 / 10, 0)]⟩ (1 / 5)).average = some (1 / 5) ∧
        (sample ⟨some (1 / 2), some (3 / 4), some 1,
            [(1 / 2, 0), (1 / 10, 0)]⟩ (1 / 5)).max = some (1 / 5)) ∧
    (∀ mn av mx,
      (⟨some (1 / 2), some (3 / 4), some 1,
          [(1 / 2, 0), (1 / 10, 0)]⟩ : TimeitState).min = some mn →
      (⟨some (1 / 2), some (3 / 4), some 1,
          [(1 / 2, 0), (1 / 10, 0)]⟩ : TimeitState).average = some av →
      (⟨some (1 / 2), some (3 / 4), some 1,
          [(1 / 2, 0), (1 / 10, 0)]⟩ : TimeitState).max = some mx →
      mn ≤ mx →
      (sample ⟨some (1 / 2), some (3 / 4), some 1,
          [(1 / 2, 0), (1 / 10, 0)]⟩ (1 / 5)).min = some (Min.min mn (1 / 5)) ∧
        (sample ⟨some (1 / 2), some (3 / 4), some 1,
            [(1 / 2, 0), (1 / 10, 0)]⟩ (1 / 5)).max =
          some (Max.max mx (1 / 5)) ∧
        (sample ⟨some (1 / 2), some (3 / 4), some 1,
            [(1 / 2, 0), (1 / 10, 0)]⟩ (1 / 5)).average =
          some ((av + 1 / 5) / 2)) ∧
    (sample ⟨some (1 / 2), some (3 / 4), some 1,
        [(1 / 2, 0), (1 / 10, 0)]⟩ (1 / 5)).buckets =
      (⟨some (1 / 2), some (3 / 4), some 1,
          [(1 / 2, 0), (1 / 10, 0)]⟩ : TimeitState).buckets.map (fun p =>
        if p.1 ≤ (1 / 5 : ℚ) ∧
            ∀ q ∈ (⟨some (1 / 2), some (3 / 4), some 1,
                [(1 / 2, 0), (1 / 10, 0)]⟩ : TimeitState).buckets,
              q.1 ≤ (1 / 5 : ℚ) → q.1 ≤ p.1 then
          (p.1, p.2 + 1)
        else p)) :=
  ⟨by norm_num [List.pairwise_cons],
    timeit_sample_spec ⟨some (1 / 2), some (3 / 4), some 1,
      [(1 / 2, 0), (1 / 10, 0)]⟩ (1 / 5)
      (by norm_num [List.pairwise_cons])⟩

/-- Helper: on a strictly descending threshold list, first-match search
finds exactly the entry whose threshold is the largest one at most n. -/
theorem find?_le_desc (l : List (String × Int)) (n : Int)
    (hdesc : l.Pairwise (fun a b => b.2 < a.2)) (p : String × Int)
    (hp : p ∈ l) (hple : p.2 ≤ n)
    (hmax : ∀ q ∈ l, q.2 ≤ n → q.2 ≤ p.2) :
    l.find? (fun q => decide (q.2 ≤ n)) = some p := by
  induction l with
  | nil => cases hp
  | cons hd tl ih =>
      rw [List.pairwise_cons] at hdesc
      obtain ⟨hhd, htl⟩ := hdesc
      by_cases hc : hd.2 ≤ n
      · rw [List.find?_cons_of_pos _ (by simpa using hc)]
        rcases List.mem_cons.mp hp with rfl | hptl
        · rfl
        · exact absurd (hmax hd (List.mem_cons_self _ _) hc)
            (not_le.mpr (hhd p hptl))
      · rw [List.find?_cons_of_neg _ (by simpa using hc)]
        rcases List.mem_cons.mp hp with rfl | hptl
        · exact absurd hple hc
        · exact ih htl hptl fun q hq hqn =>
            hmax q (List.mem_cons_of_mem _ hq) hqn

/-- Helper: the scaled rendering branch of Bytes.__str__, for the table
entry of the largest threshold at most the value. -/
theorem bytesStr_scaled (n : Int) (p : String × Int) (hp : p ∈ bytesTable)
    (hple : p.2 ≤ n) (hmax : ∀ q ∈ bytesTable, q.2 ≤ n → q.2 ≤ p.2) :
    bytesStr n = fmt2 ((n : ℚ) / (p.2 : ℚ)) ++ p.1 := by
  have hn : ¬n = 0 := by
    have hpos : (0 : Int) < p.2 := (by decide : ∀ q ∈ bytesTable, (0 : Int) < q.2) p hp
    omega
  unfold bytesStr
  rw [if_neg hn, find?_le_desc bytesTable n (by decide) p hp hple hmax]

/-- Helper: the fallback branch of Bytes.__str__ below every threshold. -/
theorem bytesStr_below (n : Int) (hn : n ≠ 0) (hlt : n < 1024) :
    bytesStr n = fmt2 (n : ℚ) ++ "B" := by
  unfold bytesStr
  have hfind : bytesTable.find? (fun q => decide (q.2 ≤ n)) = none := by
    rw [List.find?_eq_none]
    intro q hq
    have h1024 := (by decide : ∀ q ∈ bytesTable, (1024 : Int) ≤ q.2) q hq
    simp only [decide_eq_true_eq]
    omega
  rw [if_neg hn, hfind]

/-- Claim C9: byte-size console rendering blanks a zero value, renders
1023 as 1023.00B, 1024 as 1.00K and 1048576 as 1.00M; in general a value
below the smallest threshold keeps the B suffix, and otherwise the value
is scaled (two decimals) by the largest binary 1024-based threshold at
most the value, with that prefix letter; the persisted form is always the
plain integer string. -/
theorem bytes_render_spec :
    (bytesStr 0 = " " ∧ bytesStr 1023 = "1023.00B" ∧
      bytesStr 1024 = "1.00K" ∧ bytesStr 1048576 = "1.00M") ∧
    (∀ n : Int, n ≠ 0 → n < 1024 → bytesStr n = fmt2 (n : ℚ) ++ "B") ∧
    (∀ p ∈ bytesTable, ∀ n : Int, p.2 ≤ n →
      (∀ q ∈ bytesTable, q.2 ≤ n → q.2 ≤ p.2) →
      bytesStr n = fmt2 ((n : ℚ) / (p.2 : ℚ)) ++ p.1) ∧
    (∀ n : Int, bytesToCsv n = toString n) := by
  refine ⟨⟨rfl, ?_, ?_, ?_⟩, fun n h1 h2 => bytesStr_below n h1 h2,
    fun p hp n h1 h2 => bytesStr_scaled n p hp h1 h2, fun n => rfl⟩
  · rw [bytesStr_below 1023 (by decide) (by decide)]
    norm_num [fmt2, roundHalfEven, ratFloor]
    rfl
  · rw [bytesStr_scaled 1024 ("K", 2 ^ 10) (by decide) (by decide)
      (by decide)]
    norm_num [fmt2, roundHalfEven, ratFloor]
    rfl
  · rw [bytesStr_scaled 1048576 ("M", 2 ^ 20) (by decide) (by decide)
      (by decide)]
    norm_num [fmt2, roundHalfEven, ratFloor]
    rfl

/-- Witness for claim C9: the scaled branch at 1536 with the K entry and
the fallback branch at 500. -/
theorem bytes_render_spec_witness :
    ((("K", (2 : Int) ^ 10) ∈ bytesTable ∧ ((2 : Int) ^ 10 ≤ 1536) ∧
      bytesStr 1536 = fmt2 ((1536 : ℚ) / (((2 : Int) ^ 10 : Int) : ℚ)) ++ "K") ∧
    ((500 : Int) ≠ 0 ∧ (500 : Int) < 1024 ∧
      bytesStr 500 = fmt2 ((500 : Int) : ℚ) ++ "B")) :=
  ⟨⟨by decide, by decide,
      bytes_render_spec.2.2.1 ("K", 2 ^ 10) (by decide) 1536 (by decide)
        (by decide)⟩,
    ⟨by decide, by decide, bytes_render_spec.2.1 500 (by decide) (by decide)⟩⟩

/-- Helper: the write_line loop equals its map form — rendered metrics
(reset when committing), rendered cells, and the flattened csv row. -/
theorem writeLoop_eq (now : ℚ) (fix : Bool) (ms : List TMetric) :
    writeLoop now fix ms =
      (ms.map (fun m =>
          if fix then resetM (renderValue now fix m).1
          else (renderValue now fix m).1),
        ms.map (fun m => (renderValue now fix m).2),
        (ms.map (fun m => csvValuesOf (renderValue now fix m).1)).flatten) := by
  induction ms with
  | nil => rfl
  | cons m rest ih =>
      simp only [writeLoop, ih, List.map_cons, List.flatten_cons]

/-- Claim C8: write_line renders every attached metric in order with the
commit flag; a metric is reset exactly when committing; the csv file is
untouched on a provisional line or when no path is configured, and a
committed line with a configured path appends exactly one row of the
persisted values, groups expanded into one column per child. -/
theorem write_line_spec (now : ℚ) (fix : Bool) (tc : TC) :
    ((write_line now fix tc).metrics =
        tc.metrics.map (fun m =>
          if fix then resetM (renderValue now fix m).1
          else (renderValue now fix m).1)) ∧
    ((write_line now fix tc).console =
        tc.console ++
          [((if tc.lastLineFixed then "\n\r" else "\r") ++
              (if fix then "" else ansiReverse)) ++
            String.intercalate (ansiGray ++ "|" ++ ansiReset)
              (tc.metrics.map (fun m => (renderValue now fix m).2))]) ∧
    (fix = false → (write_line now fix tc).csvfile = tc.csvfile) ∧
    (tc.csvfile = none → (write_line now fix tc).csvfile = none) ∧
    (∀ rows, tc.csvfile = some rows → fix = true →
      (write_line now fix tc).csvfile =
        some (rows ++
          [(tc.metrics.map
              (fun m => csvValuesOf (renderValue now fix m).1)).flatten])) := by
  have hw := writeLoop_eq now fix tc.metrics
  refine ⟨?_, ?_, ?_, ?_, ?_⟩
  · simp [write_line, hw]
  · simp [write_line, hw]
  · intro hfix
    simp [write_line, hfix]
  · intro hnone
    cases fix <;> simp [write_line, hnone]
  · intro rows hrows hfix
    subst hfix
    simp [write_line, hw, hrows]

/-! ### The count/ratio table scenario -/

/-- The Int metric named count of the table round-trip scenario. -/
def countMetric (v : Option Int) : TMetric := .mInt "count" "" 7 v

/-- The Float metric named ratio of the table round-trip scenario. -/
def ratioMetric (v : Option ℚ) : TMetric := .mFloat "ratio" "" 6 v

/-- A Timecard with the metrics count and ratio attached in that order and
a configured (empty) csv file. -/
def tcCountRatio : TC :=
  ⟨[countMetric (some 0), ratioMetric (some 0)], some [], [], false⟩

/-- Models the assignment tc.count = c (or tc["count"] = c): the ordered
mapping finds the existing Int metric under the key and assigns the value
through its declared int value type. -/
def setCount (c : Int) (tc : TC) : TC :=
  { tc with
      metrics := tc.metrics.map (fun m =>
        match m with
        | .mInt t s w v =>
            if t = "count" then .mInt t s w (some c) else .mInt t s w v
        | m => m) }

/-- Models the assignment tc.ratio = r through the float value type of the
existing metric under the key ratio. -/
def setRatio (r : ℚ) (tc : TC) : TC :=
  { tc with
      metrics := tc.metrics.map (fun m =>
        match m with
        | .mFloat t s w v =>
            if t = "ratio" then .mFloat t s w (some r) else .mFloat t s w v
        | m => m) }

/-- N committed lines: before each commit the caller sets count and ratio
to the next pair, then calls write_line with fix true. -/
def runCommits (now : ℚ) : List (Int × ℚ) → TC → TC
  | [], tc => tc
  | pr :: rest, tc =>
      runCommits now rest (write_line now true (setRatio pr.2 (setCount pr.1 tc)))

/-- Helper: across any sequence of set-and-commit steps on a count/ratio
table, the csv file accumulates exactly one row per commit holding the
persisted renderings of the values set before that commit. -/
theorem runCommits_csv (now : ℚ) (l : List (Int × ℚ)) :
    ∀ (c0 : Option Int) (r0 : Option ℚ) (rows : List (List String))
      (con : List String) (lf : Bool),
      (runCommits now l
          ⟨[countMetric c0, ratioMetric r0], some rows, con, lf⟩).csvfile =
        some (rows ++ l.map (fun pr => [toString pr.1, fmt1 pr.2])) := by
  induction l with
  | nil =>
      intro c0 r0 rows con lf
      simp [runCommits]
  | cons pr rest ih =>
      intro c0 r0 rows con lf
      show (runCommits now rest (write_line now true (setRatio pr.2
        (setCount pr.1
          ⟨[countMetric c0, ratioMetric r0], some rows, con, lf⟩)))).csvfile = _
      generalize hW : write_line now true (setRatio pr.2 (setCount pr.1
        ⟨[countMetric c0, ratioMetric r0], some rows, con, lf⟩)) = W
      have h1 : W.metrics = [countMetric (some pr.1), ratioMetric (some pr.2)] := by
        rw [← hW]
        simp [setCount, setRatio, countMetric, ratioMetric, write_line,
          writeLoop, renderValue, resetM]
      have h2 : W.csvfile = some (rows ++ [[toString pr.1, fmt1 pr.2]]) := by
        rw [← hW]
        simp [setCount, setRatio, countMetric, ratioMetric, write_line,
          writeLoop, renderValue, resetM, csvValuesOf, toCsvM, strOfM]
      obtain ⟨ms, cf, con2, lf2⟩ := W
      simp only at h1 h2
      subst h1 h2
      simpa [List.append_assoc] using
        ih (some pr.1) (some pr.2) (rows ++ [[toString pr.1, fmt1 pr.2]]) con2 lf2

/-- Claim C7 counterexample: after writing headers and committing one line
with count set to 5 and ratio to one half, the metrics still hold 5 and
one half — the Int and Float metrics do not return to an unset or zero
state after the commit, because the base reset is a no-op. -/
theorem table_roundtrip_cex :
    (write_line 0 true (setRatio (1 / 2) (setCount 5
        (write_headers tcCountRatio)))).metrics =
      [countMetric (some 5), ratioMetric (some (1 / 2))] ∧
    some (5 : Int) ≠ some (0 : Int) ∧ some (5 : Int) ≠ (none : Option Int) := by
  refine ⟨?_, by decide, by decide⟩
  simp [setCount, setRatio, countMetric, ratioMetric, write_headers,
    tcCountRatio, write_line, writeLoop, renderValue, resetM]

/-- Claim C7 (amended): the file round-trip holds — the header row is
count,ratio and each committed line appends exactly one row holding the
persisted renderings (decimal integer, one-decimal float) of the values
set before that commit — but after a commit the Int and Float metrics
keep their values: the base reset called by write_line is a no-op for
them, so they do not return to an unset or zero state. -/
theorem table_roundtrip_spec (l : List (Int × ℚ)) :
    (write_headers tcCountRatio).csvfile = some [["count", "ratio"]] ∧
    (runCommits 0 l (write_headers tcCountRatio)).csvfile =
      some (["count", "ratio"] :: l.map (fun pr => [toString pr.1, fmt1 pr.2])) ∧
    (∀ c : Int, ∀ r : ℚ,
      (write_line 0 true (setRatio r (setCount c
          (write_headers tcCountRatio)))).metrics =
        [countMetric (some c), ratioMetric (some r)]) := by
  refine ⟨rfl, ?_, ?_⟩
  · have h : write_headers tcCountRatio =
        ⟨[countMetric (some 0), ratioMetric (some 0)],
          some [["count", "ratio"]], [], false⟩ := rfl
    rw [h]
    simpa using runCommits_csv 0 l (some 0) (some 0) [["count", "ratio"]] [] false
  · intro c r
    simp [setCount, setRatio, countMetric, ratioMetric, write_headers,
      tcCountRatio, write_line, writeLoop, renderValue, resetM]

/-- Witness for claim C8: a provisional line leaves the file unchanged, a
commit without a configured path leaves it absent, and a commit on the
count/ratio table appends exactly its one expanded row. -/
theorem write_line_spec_witness :
    ((write_line 0 false tcCountRatio).csvfile = tcCountRatio.csvfile) ∧
    ((write_line 0 true (⟨[], none, [], false⟩ : TC)).csvfile = none) ∧
    ((write_line 0 true tcCountRatio).csvfile =
      some ([] ++
        [(tcCountRatio.metrics.map
            (fun m => csvValuesOf (renderValue 0 true m).1)).flatten])) :=
  ⟨(write_line_spec 0 false tcCountRatio).2.2.1 rfl,
    (write_line_spec 0 true ⟨[], none, [], false⟩).2.2.2.1 rfl,
    (write_line_spec 0 true tcCountRatio).2.2.2.2 [] rfl rfl⟩

end Timecard
